import Mathlib

/-!
Shallow embedding of src/src/vppinfra/unix-misc.c (VPP host-introspection and
defensive-I/O layer).

The OS environment is modelled explicitly:
  - a stat result is `Option (Bool × Nat)` (`none` = stat failed, otherwise
    whether the entry is a regular file and its reported size);
  - whether open(2) succeeds is a `Bool`;
  - the behaviour of successive read(2) calls on the opened descriptor is a
    finite schedule `List ReadStep`: `rerr` is a negative return, `rok avail`
    means the kernel has the byte list `avail` ready for this call and
    delivers `avail.take count` when the program requests `count` bytes
    (read(2) never delivers more than requested).  An exhausted schedule
    behaves as end-of-stream (read returns 0), so every real execution is
    some finite schedule.

Buffers (vpp growable vectors) are `List Nat` of byte values.  Resource
events that the claims talk about (descriptor close, buffer free, writes to
the caller's out-parameter) are recorded as fields of the result structures,
set exactly where the C code performs them.
-/

/-- vpp clib_error_t, reduced to the information the code puts into it:
`unixErr op file` models clib_error_return_unix with the given operation
format string (the read-failure path of clib_file_read_contents really does
use the "open" format string, copied verbatim from the source), and
`shortRead file expected got` models the clib_error_return message
" expected to read %wd bytes; read only %wd" with its two counts. -/
inductive ClibError where
  | unixErr (op : String) (file : String)
  | shortRead (file : String) (expected : Nat) (got : Nat)
deriving Repr, DecidableEq

/-- One read(2) call on the opened descriptor: an error return, or a kernel
buffer `avail` of which `avail.take count` is delivered for a request of
`count` bytes. -/
inductive ReadStep where
  | rerr
  | rok (avail : List Nat)
deriving Repr, DecidableEq

/-- Writing `data` into a byte buffer starting at byte offset `off`
(the effect of read(2) storing into `v + off`).  The model permits writing
past the end of the buffer — the resulting list then grows — so that staying
inside the allocation is a fact to prove, not an assumption. -/
def writeAt (v : List Nat) (off : Nat) (data : List Nat) : List Nat :=
  v.take off ++ data ++ v.drop (off + data.length)

/-- vpp vec_validate (v, i): make sure indices 0..i are valid, zero-filling
any newly created elements. -/
def vec_validate (v : List Nat) (i : Nat) : List Nat :=
  if i + 1 ≤ v.length then v else v ++ List.replicate (i + 1 - v.length) 0

/-- clib_file_n_bytes: stat the file; on failure return a unix error and
leave the result out-parameter unwritten; otherwise the result is st_size
for a regular file and 0 for a non-regular entry. -/
def clib_file_n_bytes (file : String) (statRes : Option (Bool × Nat)) :
    Except ClibError Nat :=
  match statRes with
  | none => Except.error (ClibError.unixErr "stat" file)
  | some (isReg, size) => Except.ok (if isReg then size else 0)

/-- State at exit of the read loop of clib_file_read_contents:
pending error, buffer contents, n_done and n_left. -/
structure LoopState where
  err : Option ClibError
  v : List Nat
  n_done : Nat
  n_left : Nat
deriving Repr, DecidableEq

/-- The while (n_left > 0) loop of clib_file_read_contents: each iteration
reads at most n_left bytes into the buffer at offset n_done; a negative read
sets the unix error (with the source's literal "open" format string) and
leaves the loop; a zero-byte read (end of file) breaks; otherwise n_done
and n_left are updated by the count actually read. -/
def readLoop (file : String) : List ReadStep → List Nat → Nat → Nat → LoopState
  | _, v, nd, 0 => ⟨none, v, nd, 0⟩
  | [], v, nd, nl + 1 => ⟨none, v, nd, nl + 1⟩
  | ReadStep.rerr :: _, v, nd, nl + 1 =>
      ⟨some (ClibError.unixErr "open" file), v, nd, nl + 1⟩
  | ReadStep.rok avail :: rest, v, nd, nl + 1 =>
      let chunk := avail.take (nl + 1)
      if chunk.length = 0 then ⟨none, v, nd, nl + 1⟩
      else readLoop file rest (writeAt v nd chunk) (nd + chunk.length)
             (nl + 1 - chunk.length)

/-- Result of clib_file_read_contents: the error (if any), the final state of
the caller's buffer region, and whether the descriptor was opened and closed. -/
structure RCResult where
  err : Option ClibError
  buf : List Nat
  fdOpened : Bool
  fdClosed : Bool
deriving Repr, DecidableEq

/-- clib_file_read_contents: open the file (unix error on failure, nothing to
close); run the read loop; if it left an error, or if n_left is still
positive (short read: report file, n_bytes and n_bytes - n_left), return the
error; the done label closes the descriptor on every path that opened it. -/
def clib_file_read_contents (file : String) (openOk : Bool)
    (reads : List ReadStep) (result : List Nat) (n_bytes : Nat) : RCResult :=
  if openOk then
    let s := readLoop file reads result 0 n_bytes
    match s.err with
    | some e => ⟨some e, s.v, true, true⟩
    | none =>
        if 0 < s.n_left then
          ⟨some (ClibError.shortRead file n_bytes (n_bytes - s.n_left)),
           s.v, true, true⟩
        else ⟨none, s.v, true, true⟩
  else ⟨some (ClibError.unixErr "open" file), result, false, false⟩

/-- Result of clib_file_contents: error, final value of the caller's
out-parameter *result (initial value passed in as result0), the number of
assignments performed on *result, and the resource events. -/
structure FCResult where
  err : Option ClibError
  result : Option (List Nat)
  resultWrites : Nat
  bufAllocated : Bool
  bufFreed : Bool
  fdOpened : Bool
  fdClosed : Bool
deriving Repr, DecidableEq

/-- clib_file_contents: query the size; on stat error propagate it; otherwise
allocate a zero-filled vector of n_bytes (vec_resize), run
clib_file_read_contents on it, and on error vec_free the vector while on
success store it once into *result. -/
def clib_file_contents (file : String) (statRes : Option (Bool × Nat))
    (openOk : Bool) (reads : List ReadStep) (result0 : Option (List Nat)) :
    FCResult :=
  match clib_file_n_bytes file statRes with
  | Except.error e => ⟨some e, result0, 0, false, false, false, false⟩
  | Except.ok n_bytes =>
      let v := List.replicate n_bytes 0
      let r := clib_file_read_contents file openOk reads v n_bytes
      match r.err with
      | some e => ⟨some e, result0, 0, true, true, r.fdOpened, r.fdClosed⟩
      | none => ⟨none, some r.buf, 1, true, false, r.fdOpened, r.fdClosed⟩

/-- Spec-side mirror of "the number of bytes that can be read before
end-of-stream or a read error" for a request of `n` bytes under a given
schedule: the total the loop obtains before it stops. -/
def countDelivered : List ReadStep → Nat → Nat
  | _, 0 => 0
  | [], _ + 1 => 0
  | ReadStep.rerr :: _, _ + 1 => 0
  | ReadStep.rok avail :: rest, nl + 1 =>
      let k := (avail.take (nl + 1)).length
      if k = 0 then 0 else k + countDelivered rest (nl + 1 - k)

/-- State at exit of the while (1) loop of unix_proc_file_contents:
pending error, the vector rv (already truncated by vec_set_len on the
end-of-stream exit), and the cursor pos. -/
structure ProcLoopOut where
  err : Option ClibError
  rv : List Nat
  pos : Nat
deriving Repr, DecidableEq

/-- The while (1) loop of unix_proc_file_contents: read up to 4096 bytes at
offset pos; a negative read produces the unix "read" error; a zero-byte read
truncates the vector's logical length to pos (vec_set_len) and breaks;
otherwise advance pos and vec_validate room for one more full chunk.  An
exhausted schedule is end-of-stream. -/
def procLoop (file : String) : List ReadStep → List Nat → Nat → ProcLoopOut
  | [], rv, pos => ⟨none, rv.take pos, pos⟩
  | ReadStep.rerr :: _, rv, pos => ⟨some (ClibError.unixErr "read" file), rv, pos⟩
  | ReadStep.rok avail :: rest, rv, pos =>
      let chunk := avail.take 4096
      if chunk.length = 0 then ⟨none, rv.take pos, pos⟩
      else procLoop file rest
             (vec_validate (writeAt rv pos chunk) (pos + chunk.length + 4095))
             (pos + chunk.length)

/-- Result of unix_proc_file_contents: error, final value of the caller's
out-parameter *result, and the resource events. -/
structure ProcResult where
  err : Option ClibError
  result : Option (List Nat)
  fdOpened : Bool
  fdClosed : Bool
  bufAllocated : Bool
  bufFreed : Bool
deriving Repr, DecidableEq

/-- unix_proc_file_contents: open read-only (unix error on failure, nothing
opened or allocated); vec_validate an initial 4096-byte chunk; run the chunk
loop; on a read error the descriptor is closed and the vector freed before
the error is returned; on end-of-stream *result receives the truncated
vector and the descriptor is closed. -/
def unix_proc_file_contents (file : String) (openOk : Bool)
    (reads : List ReadStep) (result0 : Option (List Nat)) : ProcResult :=
  if openOk then
    let out := procLoop file reads (vec_validate [] 4095) 0
    match out.err with
    | some e => ⟨some e, result0, true, true, true, true⟩
    | none => ⟨none, some out.rv, true, true, true, false⟩
  else ⟨some (ClibError.unixErr "open" file), result0, false, false, false, false⟩

/-- Spec-side mirror of "the total number of bytes observed before the first
zero-byte read" for the streaming reader's 4096-byte chunked schedule. -/
def streamDelivered : List ReadStep → Nat
  | [] => 0
  | ReadStep.rerr :: _ => 0
  | ReadStep.rok avail :: rest =>
      let k := (avail.take 4096).length
      if k = 0 then 0 else k + streamDelivered rest

/-- The pointer walk `while (p > buffer and p[-1] != 47) p--` of
clib_file_get_resolved_basename, with `p` a byte index into `buf`:
returns the final index (47 is the byte value of the path separator). -/
def backScan (buf : List Nat) : Nat → Nat
  | 0 => 0
  | q + 1 => if buf.getD q 0 = 47 then q + 1 else backScan buf q

/-- clib_file_get_resolved_basename: the formatted path is resolved by
readlink into a bounded buffer; the model takes readlink's outcome directly
(`none` = negative return, `some target` = the raw target bytes).  If fewer
than 1 byte results, return absent (0).  Otherwise NUL-terminate the buffer
at the returned length, scan backward from the last byte to the byte after
the most recent separator (or the buffer start), and copy from there up to
the NUL, appending a final NUL to the fresh vector. -/
def clib_file_get_resolved_basename (rl : Option (List Nat)) :
    Option (List Nat) :=
  match rl with
  | none => none
  | some target =>
      if target.length < 1 then none
      else
        let buffer := target ++ [0]
        let p := backScan buffer (target.length - 1)
        some ((buffer.drop p).takeWhile (fun b => b ≠ 0) ++ [0])

/-- ASCII decimal rendering of a number, as produced by the %d conversion. -/
def decimalBytes (n : Nat) : List Nat := (Nat.toDigits 10 n).map Char.toNat

/-- The single writev(2) invocation performed by os_puts: the target
descriptor and the parts (iovecs) in order. -/
structure PutsOut where
  fd : Nat
  iovs : List (List Nat)
deriving Repr, DecidableEq

/-- os_puts: pick stderr (2) or stdout (1); if more than one thread is
active, snprintf the "%d: " prefix of the calling thread index into a
64-byte local buffer (so at most 63 bytes survive) and make it the first
iovec; the string is the last iovec; issue one writev with the parts and
ignore its result (`if (writev(...) < 0);` — the return value, modelled by
writevRes, has no effect whatsoever). -/
def os_puts (cpu : Nat) (nthreads : Nat) (string : List Nat)
    (is_error : Bool) (_writevRes : Int) : PutsOut :=
  let fd := if is_error then 2 else 1
  let parts :=
    if 1 < nthreads then [(decimalBytes cpu ++ [58, 32]).take 63] else []
  ⟨fd, parts ++ [string]⟩

/-- os_get_nthreads: the default (weak) implementation returns 1. -/
def os_get_nthreads : Nat := 1

/-- sizeof (cpu_set_t) in bytes on the modelled platform. -/
def cpu_set_bytes : Nat := 128

/-- Number of bits in the native affinity record (CPU_SETSIZE). -/
def cpu_set_bits : Nat := 8 * cpu_set_bytes

/-- clib_bitmap_set (v, i, 1): grow the bitmap if index i is beyond its
current capacity, then set bit i. -/
def clib_bitmap_set (bm : List Bool) (i : Nat) : List Bool :=
  (if bm.length ≤ i then bm ++ List.replicate (i + 1 - bm.length) false
   else bm).set i true

/-- os_get_cpu_affinity_bitmap: allocate a bitmap for sizeof (cpu_set_t)
bits and zero it; invoke the sched_getaffinity syscall into a native
cpu_set_t record (modelled by queryOk and the record's bits `cpuset`); on
failure free the bitmap and return null; on success, for each index below
sizeof (cpu_set_t) — the loop bound is the byte count 128, not the bit
count — set the bitmap bit when the native record has that bit set. -/
def os_get_cpu_affinity_bitmap (queryOk : Bool) (cpuset : List Bool) :
    Option (List Bool) :=
  let affinity0 := List.replicate cpu_set_bytes false
  if queryOk then
    some ((List.range cpu_set_bytes).foldl
      (fun bm i => if cpuset.getD i false then clib_bitmap_set bm i else bm)
      affinity0)
  else none

/-! ### Helper lemmas -/

lemma writeAt_length (v data : List Nat) (off : Nat)
    (h : off + data.length ≤ v.length) :
    (writeAt v off data).length = v.length := by
  simp only [writeAt, List.length_append, List.length_take, List.length_drop]
  omega

lemma readLoop_zero (file : String) (reads : List ReadStep) (v : List Nat)
    (nd : Nat) : readLoop file reads v nd 0 = ⟨none, v, nd, 0⟩ := by
  cases reads with
  | nil => rfl
  | cons s rest => cases s <;> rfl

lemma countDelivered_zero (reads : List ReadStep) : countDelivered reads 0 = 0 := by
  cases reads with
  | nil => rfl
  | cons s rest => cases s <;> rfl

lemma readLoop_state (file : String) :
    ∀ (reads : List ReadStep) (v : List Nat) (nd nl : Nat),
    v.length = nd + nl →
    (readLoop file reads v nd nl).v.length = nd + nl ∧
    (readLoop file reads v nd nl).n_done = nd + countDelivered reads nl ∧
    (readLoop file reads v nd nl).n_left = nl - countDelivered reads nl := by
  intro reads
  induction reads with
  | nil =>
      intro v nd nl h
      cases nl with
      | zero => simp [readLoop, countDelivered, h]
      | succ m => simp [readLoop, countDelivered, h]
  | cons s rest ih =>
      intro v nd nl h
      cases nl with
      | zero => simp [readLoop_zero, countDelivered_zero, h]
      | succ m =>
          cases s with
          | rerr => simp [readLoop, countDelivered, h]
          | rok avail =>
              simp only [readLoop, countDelivered]
              by_cases hk : (avail.take (m + 1)).length = 0
              · simp [hk, h]
              · simp only [hk, if_false]
                have hkle : (avail.take (m + 1)).length ≤ m + 1 := by
                  simp [List.length_take]
                have hw : (writeAt v nd (avail.take (m + 1))).length =
                    (nd + (avail.take (m + 1)).length) + (m + 1 - (avail.take (m + 1)).length) := by
                  rw [writeAt_length v _ nd (by omega)]
                  omega
                obtain ⟨h1, h2, h3⟩ := ih (writeAt v nd (avail.take (m + 1)))
                  (nd + (avail.take (m + 1)).length)
                  (m + 1 - (avail.take (m + 1)).length) hw
                refine ⟨by rw [h1]; omega, by rw [h2]; omega, by rw [h3]; omega⟩

lemma readLoop_err_none (file : String) :
    ∀ (reads : List ReadStep) (v : List Nat) (nd nl : Nat),
    (∀ s ∈ reads, s ≠ ReadStep.rerr) →
    (readLoop file reads v nd nl).err = none := by
  intro reads
  induction reads with
  | nil =>
      intro v nd nl _
      cases nl <;> simp [readLoop]
  | cons s rest ih =>
      intro v nd nl hs
      cases nl with
      | zero => simp [readLoop_zero]
      | succ m =>
          cases s with
          | rerr => exact absurd rfl (hs ReadStep.rerr (List.mem_cons_self _ _))
          | rok avail =>
              simp only [readLoop]
              by_cases hk : (avail.take (m + 1)).length = 0
              · simp [hk]
              · simp only [hk, if_false]
                exact ih _ _ _ (fun t ht => hs t (List.mem_cons_of_mem _ ht))

lemma countDelivered_le (reads : List ReadStep) (nl : Nat) :
    countDelivered reads nl ≤ nl := by
  induction reads generalizing nl with
  | nil => cases nl <;> simp [countDelivered]
  | cons s rest ih =>
      cases nl with
      | zero => simp [countDelivered_zero]
      | succ m =>
          cases s with
          | rerr => simp [countDelivered]
          | rok avail =>
              simp only [countDelivered]
              by_cases hk : (avail.take (m + 1)).length = 0
              · simp [hk]
              · simp only [hk, if_false]
                have h1 : (avail.take (m + 1)).length ≤ m + 1 := by
                  simp [List.length_take]
                have h2 := ih (m + 1 - (avail.take (m + 1)).length)
                omega

/-! ### Claim theorems: exact-size reader -/

/-- C1: for a file whose metadata-reported size is N (regular file, stat
succeeds) and whose descriptor opens, under any I/O-error-free read
schedule, a successful clib_file_contents stores a buffer of length exactly
N, and when fewer than N bytes are available before end-of-stream the
returned error is the short-read error naming the path, the expected length
N and the number of bytes actually obtained, while the caller's
out-parameter keeps its previous value (no shorter or padded buffer is ever
handed out). -/
theorem clib_file_contents_exact_size (file : String) (N : Nat)
    (reads : List ReadStep) (result0 : Option (List Nat))
    (hre : ∀ s ∈ reads, s ≠ ReadStep.rerr) :
    ((clib_file_contents file (some (true, N)) true reads result0).err = none →
      ∃ buf,
        (clib_file_contents file (some (true, N)) true reads result0).result =
          some buf ∧ buf.length = N) ∧
    ((clib_file_contents file (some (true, N)) true reads result0).err ≠ none →
      (clib_file_contents file (some (true, N)) true reads result0).err =
        some (ClibError.shortRead file N (countDelivered reads N)) ∧
      countDelivered reads N < N ∧
      (clib_file_contents file (some (true, N)) true reads result0).result =
        result0) := by
  obtain ⟨hv, hnd, hnl⟩ :=
    readLoop_state file reads (List.replicate N 0) 0 N (by simp)
  have herr := readLoop_err_none file reads (List.replicate N 0) 0 N hre
  have hcle := countDelivered_le reads N
  have hb : clib_file_n_bytes file (some (true, N)) = Except.ok N := by
    simp [clib_file_n_bytes]
  have hmain : clib_file_contents file (some (true, N)) true reads result0 =
      (if 0 < N - countDelivered reads N then
        ⟨some (ClibError.shortRead file N (countDelivered reads N)), result0,
         0, true, true, true, true⟩
       else
        ⟨none, some (readLoop file reads (List.replicate N 0) 0 N).v, 1, true,
         false, true, true⟩) := by
    simp only [clib_file_contents, hb]
    simp only [clib_file_read_contents, if_true, herr, hnl]
    by_cases h0 : 0 < N - countDelivered reads N
    · simp only [h0, if_true, if_pos h0]
      have : N - (N - countDelivered reads N) = countDelivered reads N := by
        omega
      simp [this]
    · simp only [h0, if_false, if_neg h0]
  rw [hmain]
  by_cases h0 : 0 < N - countDelivered reads N
  · rw [if_pos h0]
    refine ⟨fun hc => absurd hc (by simp), fun _ => ⟨rfl, by omega, rfl⟩⟩
  · rw [if_neg h0]
    exact ⟨fun _ => ⟨_, rfl, by simpa using hv⟩, fun hc => absurd rfl hc⟩

/-- Witness for C1 at a concrete file of reported size 3 whose schedule
delivers the three bytes. -/
theorem clib_file_contents_exact_size_witness :
    ((clib_file_contents "f" (some (true, 3)) true [ReadStep.rok [1, 2, 3]]
        none).err = none →
      ∃ buf,
        (clib_file_contents "f" (some (true, 3)) true [ReadStep.rok [1, 2, 3]]
          none).result = some buf ∧ buf.length = 3) ∧
    ((clib_file_contents "f" (some (true, 3)) true [ReadStep.rok [1, 2, 3]]
        none).err ≠ none →
      (clib_file_contents "f" (some (true, 3)) true [ReadStep.rok [1, 2, 3]]
        none).err = some (ClibError.shortRead "f" 3
          (countDelivered [ReadStep.rok [1, 2, 3]] 3)) ∧
      countDelivered [ReadStep.rok [1, 2, 3]] 3 < 3 ∧
      (clib_file_contents "f" (some (true, 3)) true [ReadStep.rok [1, 2, 3]]
        none).result = none) :=
  clib_file_contents_exact_size "f" 3 [ReadStep.rok [1, 2, 3]] none (by decide)

lemma clib_file_read_contents_buf (file : String) (reads : List ReadStep)
    (v : List Nat) (n_bytes : Nat) :
    (clib_file_read_contents file true reads v n_bytes).buf =
      (readLoop file reads v 0 n_bytes).v := by
  rcases herr : (readLoop file reads v 0 n_bytes).err with _ | e
  · simp only [clib_file_read_contents, herr, if_true]
    by_cases h0 : 0 < (readLoop file reads v 0 n_bytes).n_left
    · rw [if_pos h0]
    · rw [if_neg h0]
  · simp only [clib_file_read_contents, herr, if_true]

/-- C10: the read loop of clib_file_read_contents keeps bytes done plus
bytes left equal to the requested total at every loop entry state (each
read being issued at offset n_done with bound n_left), and consequently the
caller's buffer never grows: for a buffer allocated at exactly n_bytes, the
final buffer still has length n_bytes — nothing is written past the
allocated region. -/
theorem clib_file_read_contents_no_overflow (file : String) (openOk : Bool)
    (reads : List ReadStep) :
    (∀ (v : List Nat) (nd nl : Nat), v.length = nd + nl →
      (readLoop file reads v nd nl).n_done +
        (readLoop file reads v nd nl).n_left = nd + nl ∧
      (readLoop file reads v nd nl).v.length = nd + nl) ∧
    (∀ (v : List Nat) (n_bytes : Nat), v.length = n_bytes →
      (clib_file_read_contents file openOk reads v n_bytes).buf.length =
        n_bytes) := by
  constructor
  · intro v nd nl h
    obtain ⟨h1, h2, h3⟩ := readLoop_state file reads v nd nl h
    have := countDelivered_le reads nl
    exact ⟨by omega, h1⟩
  · intro v n_bytes h
    cases openOk with
    | false => simpa [clib_file_read_contents] using h
    | true =>
        rw [clib_file_read_contents_buf]
        have := (readLoop_state file reads v 0 n_bytes (by simpa using h)).1
        omega

/-- Witness for C10 at a concrete loop entry state and a concrete
allocated buffer. -/
theorem clib_file_read_contents_no_overflow_witness :
    ([4, 5] : List Nat).length = 1 + 1 ∧
    ((readLoop "f" [ReadStep.rok [9]] [4, 5] 1 1).n_done +
        (readLoop "f" [ReadStep.rok [9]] [4, 5] 1 1).n_left = 1 + 1 ∧
      (readLoop "f" [ReadStep.rok [9]] [4, 5] 1 1).v.length = 1 + 1) ∧
    (clib_file_read_contents "f" true [ReadStep.rok [9]] [4, 5] 2).buf.length
      = 2 :=
  ⟨by decide,
   (clib_file_read_contents_no_overflow "f" true [ReadStep.rok [9]]).1
      [4, 5] 1 1 (by decide),
   (clib_file_read_contents_no_overflow "f" true
      [ReadStep.rok [9]]).2 [4, 5] 2 (by decide)⟩

/-- C9: clib_file_contents writes the caller's out-parameter exactly once,
and only on the success path; whenever an Error is returned the
out-parameter still holds its previous value and no assignment to it has
been performed. -/
theorem clib_file_contents_out_param (file : String)
    (statRes : Option (Bool × Nat)) (openOk : Bool) (reads : List ReadStep)
    (result0 : Option (List Nat)) :
    ((clib_file_contents file statRes openOk reads result0).err ≠ none →
      (clib_file_contents file statRes openOk reads result0).result =
        result0 ∧
      (clib_file_contents file statRes openOk reads result0).resultWrites =
        0) ∧
    ((clib_file_contents file statRes openOk reads result0).err = none →
      (clib_file_contents file statRes openOk reads result0).resultWrites =
        1) := by
  rcases statRes with _ | ⟨isReg, size⟩
  · simp [clib_file_contents, clib_file_n_bytes]
  · rcases herr : (clib_file_read_contents file openOk reads
        (List.replicate (if isReg then size else 0) 0)
        (if isReg then size else 0)).err with _ | e
    · simp [clib_file_contents, clib_file_n_bytes, herr]
    · simp [clib_file_contents, clib_file_n_bytes, herr]

/-- Witness for C9: a failing stat leaves the out-parameter untouched and
unwritten. -/
theorem clib_file_contents_out_param_witness :
    (clib_file_contents "f" none true [] (some [7])).result = some [7] ∧
    (clib_file_contents "f" none true [] (some [7])).resultWrites = 0 :=
  (clib_file_contents_out_param "f" none true [] (some [7])).1 (by decide)

/-- C4: when stat succeeds on a zero-length regular file or on a
non-regular entry, the size is treated as zero (clib_file_n_bytes reports
0, not an error), and provided the open succeeds clib_file_contents
returns no error and an empty buffer. -/
theorem clib_file_contents_zero_size (file : String) (isReg : Bool)
    (size : Nat) (reads : List ReadStep) (result0 : Option (List Nat))
    (h : isReg = false ∨ size = 0) :
    clib_file_n_bytes file (some (isReg, size)) = Except.ok 0 ∧
    (clib_file_contents file (some (isReg, size)) true reads result0).err =
      none ∧
    (clib_file_contents file (some (isReg, size)) true reads
      result0).result = some [] := by
  have hzero : (if isReg then size else 0) = 0 := by
    rcases h with h | h <;> simp [h]
  have hb : clib_file_n_bytes file (some (isReg, size)) = Except.ok 0 := by
    simp [clib_file_n_bytes, hzero]
  refine ⟨hb, ?_⟩
  have hrc : clib_file_read_contents file true reads ([] : List Nat) 0 =
      ⟨none, [], true, true⟩ := by
    simp [clib_file_read_contents, readLoop_zero]
  constructor <;> simp [clib_file_contents, hb, hrc]

/-- Witness for C4 at a concrete non-regular entry of reported size 7. -/
theorem clib_file_contents_zero_size_witness :
    clib_file_n_bytes "f" (some (false, 7)) = Except.ok 0 ∧
    (clib_file_contents "f" (some (false, 7)) true [ReadStep.rok [1]]
      none).err = none ∧
    (clib_file_contents "f" (some (false, 7)) true [ReadStep.rok [1]]
      none).result = some [] :=
  clib_file_contents_zero_size "f" false 7 [ReadStep.rok [1]] none
    (Or.inl rfl)

lemma clib_file_read_contents_closes (file : String) (openOk : Bool)
    (reads : List ReadStep) (v : List Nat) (n_bytes : Nat) :
    (clib_file_read_contents file openOk reads v n_bytes).fdOpened = true →
    (clib_file_read_contents file openOk reads v n_bytes).fdClosed = true := by
  cases openOk with
  | false => simp [clib_file_read_contents]
  | true =>
      rcases herr : (readLoop file reads v 0 n_bytes).err with _ | e
      · simp only [clib_file_read_contents, herr, if_true]
        by_cases h0 : 0 < (readLoop file reads v 0 n_bytes).n_left
        · rw [if_pos h0]; intro _; rfl
        · rw [if_neg h0]; intro _; rfl
      · simp [clib_file_read_contents, herr]

/-- C2: every reader releases its resources on every path: the exact-size
readers close the descriptor whenever one was opened (success and failure
alike), clib_file_contents frees the partially built buffer whenever it
returns an Error after allocating, and the streaming reader closes its
descriptor on every path and frees its buffer on the read-error path. -/
theorem readers_release_resources (file : String) (openOk : Bool)
    (reads : List ReadStep) (v : List Nat) (n_bytes : Nat)
    (statRes : Option (Bool × Nat)) (result0 result1 : Option (List Nat)) :
    ((clib_file_read_contents file openOk reads v n_bytes).fdOpened = true →
      (clib_file_read_contents file openOk reads v n_bytes).fdClosed =
        true) ∧
    ((clib_file_contents file statRes openOk reads result0).fdOpened = true →
      (clib_file_contents file statRes openOk reads result0).fdClosed =
        true) ∧
    ((clib_file_contents file statRes openOk reads result0).err ≠ none →
      (clib_file_contents file statRes openOk reads result0).bufAllocated =
        true →
      (clib_file_contents file statRes openOk reads result0).bufFreed =
        true) ∧
    ((unix_proc_file_contents file openOk reads result1).fdOpened = true →
      (unix_proc_file_contents file openOk reads result1).fdClosed = true) ∧
    ((unix_proc_file_contents file openOk reads result1).err ≠ none →
      (unix_proc_file_contents file openOk reads result1).bufAllocated =
        true →
      (unix_proc_file_contents file openOk reads result1).bufFreed =
        true) := by
  refine ⟨clib_file_read_contents_closes file openOk reads v n_bytes,
    ?_, ?_, ?_, ?_⟩
  · rcases statRes with _ | ⟨isReg, size⟩
    · simp [clib_file_contents, clib_file_n_bytes]
    · rcases herr : (clib_file_read_contents file openOk reads
          (List.replicate (if isReg then size else 0) 0)
          (if isReg then size else 0)).err with _ | e <;>
        · simp only [clib_file_contents, clib_file_n_bytes, herr]
          exact clib_file_read_contents_closes file openOk reads _ _
  · rcases statRes with _ | ⟨isReg, size⟩
    · simp [clib_file_contents, clib_file_n_bytes]
    · rcases herr : (clib_file_read_contents file openOk reads
          (List.replicate (if isReg then size else 0) 0)
          (if isReg then size else 0)).err with _ | e <;>
        simp [clib_file_contents, clib_file_n_bytes, herr]
  · cases openOk with
    | false => simp [unix_proc_file_contents]
    | true =>
        rcases herr : (procLoop file reads (vec_validate [] 4095) 0).err
          with _ | e <;> simp [unix_proc_file_contents, herr]
  · cases openOk with
    | false => simp [unix_proc_file_contents]
    | true =>
        rcases herr : (procLoop file reads (vec_validate [] 4095) 0).err
          with _ | e <;> simp [unix_proc_file_contents, herr]

/-- Witness for C2 at concrete inputs (a failing read schedule, so all three
functions are on an error path after opening and allocating). -/
theorem readers_release_resources_witness :
    (clib_file_read_contents "f" true [ReadStep.rerr] [0] 1).fdClosed =
      true ∧
    (clib_file_contents "f" (some (true, 1)) true [ReadStep.rerr]
      none).bufFreed = true ∧
    (unix_proc_file_contents "f" true [ReadStep.rerr] none).fdClosed = true ∧
    (unix_proc_file_contents "f" true [ReadStep.rerr] none).bufFreed =
      true := by
  have h := readers_release_resources "f" true [ReadStep.rerr] [0] 1
    (some (true, 1)) none none
  exact ⟨h.1 (by decide), h.2.2.1 (by decide) (by decide),
    h.2.2.2.1 (by decide), h.2.2.2.2 (by decide) (by decide)⟩

lemma vec_validate_length (v : List Nat) (i : Nat) :
    (vec_validate v i).length = max v.length (i + 1) := by
  simp only [vec_validate]
  by_cases h : i + 1 ≤ v.length
  · rw [if_pos h]; omega
  · rw [if_neg h]; simp; omega

lemma procLoop_success (file : String) :
    ∀ (reads : List ReadStep) (rv : List Nat) (pos : Nat),
    pos ≤ rv.length →
    (procLoop file reads rv pos).err = none →
    (procLoop file reads rv pos).rv.length = pos + streamDelivered reads ∧
    (procLoop file reads rv pos).pos = pos + streamDelivered reads := by
  intro reads
  induction reads with
  | nil =>
      intro rv pos hle _
      simp [procLoop, streamDelivered, List.length_take]
      omega
  | cons s rest ih =>
      intro rv pos hle herr
      cases s with
      | rerr => simp [procLoop] at herr
      | rok avail =>
          simp only [procLoop, streamDelivered] at herr ⊢
          by_cases hk : (avail.take 4096).length = 0
          · simp only [hk, if_true, if_pos rfl] at herr ⊢
            simp [List.length_take]
            omega
          · simp only [hk, if_false] at herr ⊢
            have hle2 : pos + (avail.take 4096).length ≤
                (vec_validate (writeAt rv pos (avail.take 4096))
                  (pos + (avail.take 4096).length + 4095)).length := by
              rw [vec_validate_length]
              omega
            obtain ⟨h1, h2⟩ := ih _ _ hle2 herr
            exact ⟨by rw [h1]; omega, by rw [h2]; omega⟩

/-- C3: on success, the streaming reader unix_proc_file_contents hands the
caller a buffer whose logical length equals the total number of bytes
delivered by the chunked reads before the first zero-byte read — the
end-of-stream exit truncates the vector to the cursor — independent of any
filesystem-reported size (no size query appears in the model at all). -/
theorem unix_proc_file_contents_stream_length (file : String)
    (reads : List ReadStep) (result0 : Option (List Nat)) :
    (unix_proc_file_contents file true reads result0).err = none →
    ∃ buf,
      (unix_proc_file_contents file true reads result0).result = some buf ∧
      buf.length = streamDelivered reads ∧
      buf.length = (procLoop file reads (vec_validate [] 4095) 0).pos := by
  rcases herr : (procLoop file reads (vec_validate [] 4095) 0).err with _ | e
  · obtain ⟨h1, h2⟩ := procLoop_success file reads (vec_validate [] 4095) 0
      (by simp) herr
    simp only [unix_proc_file_contents, herr, if_true]
    intro _
    exact ⟨_, rfl, by simpa using h1, by rw [h1, h2]⟩
  · simp [unix_proc_file_contents, herr]

/-- Witness for C3: a stream of 3 bytes then 2 bytes then end-of-stream
yields a 5-byte buffer. -/
theorem unix_proc_file_contents_stream_length_witness :
    ∃ buf,
      (unix_proc_file_contents "p" true
        [ReadStep.rok [1, 2, 3], ReadStep.rok [4, 5], ReadStep.rok []]
        none).result = some buf ∧
      buf.length = streamDelivered
        [ReadStep.rok [1, 2, 3], ReadStep.rok [4, 5], ReadStep.rok []] ∧
      buf.length = (procLoop "p"
        [ReadStep.rok [1, 2, 3], ReadStep.rok [4, 5], ReadStep.rok []]
        (vec_validate [] 4095) 0).pos :=
  unix_proc_file_contents_stream_length "p"
    [ReadStep.rok [1, 2, 3], ReadStep.rok [4, 5], ReadStep.rok []] none
    (by rfl)

/-! ### Path resolver -/

lemma backScan_le (buf : List Nat) : ∀ q, backScan buf q ≤ q := by
  intro q
  induction q with
  | zero => simp [backScan]
  | succ q ih =>
      simp only [backScan]
      by_cases h : buf.getD q 0 = 47
      · rw [if_pos h]
      · rw [if_neg h]; omega

lemma backScan_no_sep (buf : List Nat) :
    ∀ q j, backScan buf q ≤ j → j < q → buf.getD j 0 ≠ 47 := by
  intro q
  induction q with
  | zero => intro j _ h2; omega
  | succ q ih =>
      intro j h1 h2
      simp only [backScan] at h1
      by_cases hq : buf.getD q 0 = 47
      · rw [if_pos hq] at h1; omega
      · rw [if_neg hq] at h1
        rcases Nat.lt_succ_iff_lt_or_eq.mp h2 with h | h
        · exact ih j h1 h
        · subst h; exact hq

lemma takeWhile_ne0 (l : List Nat) (h : ∀ b ∈ l, b ≠ 0) :
    (l ++ [0]).takeWhile (fun b => b ≠ 0) = l := by
  induction l with
  | nil => simp [List.takeWhile]
  | cons a l ih =>
      have ha : a ≠ 0 := h a (List.mem_cons_self _ _)
      have ih2 := ih (fun b hb => h b (List.mem_cons_of_mem _ hb))
      simp only [List.cons_append, List.takeWhile_cons]
      simp only [ne_eq, decide_not] at ih2
      simp [ha, ih2]

lemma basename_eq (target : List Nat) (h0 : ∀ b ∈ target, b ≠ 0)
    (h1 : target ≠ []) :
    clib_file_get_resolved_basename (some target) =
      some (target.drop (backScan (target ++ [0]) (target.length - 1)) ++
        [0]) := by
  have hlen : 0 < target.length := List.length_pos.mpr h1
  simp only [clib_file_get_resolved_basename]
  rw [if_neg (by omega)]
  have hp : backScan (target ++ [0]) (target.length - 1) ≤
      target.length - 1 := backScan_le _ _
  have hdrop : (target ++ [0]).drop
      (backScan (target ++ [0]) (target.length - 1)) =
      target.drop (backScan (target ++ [0]) (target.length - 1)) ++ [0] := by
    rw [List.drop_append_eq_append_drop]
    have hz : backScan (target ++ [0]) (target.length - 1) - target.length =
        0 := by omega
    rw [hz]
    rfl
  rw [hdrop,
    takeWhile_ne0 _ (fun b hb => h0 b (List.mem_of_mem_drop hb))]

/-- C6 (amended): on a successful resolution of a NUL-free, non-empty
symlink target, the returned component (before its terminating NUL) is
never empty, and contains no separator byte 47 provided the resolved
target does not end in 47; a target ending in the separator is the one
case where the separator survives into the result. -/
theorem resolved_basename_component (target : List Nat)
    (h0 : ∀ b ∈ target, b ≠ 0) (h1 : target ≠ []) :
    ∃ seg,
      clib_file_get_resolved_basename (some target) = some (seg ++ [0]) ∧
      seg ≠ [] ∧
      (target.getLast? ≠ some 47 → ¬ 47 ∈ seg) := by
  have hlen : 0 < target.length := List.length_pos.mpr h1
  have hp : backScan (target ++ [0]) (target.length - 1) ≤
      target.length - 1 := backScan_le _ _
  refine ⟨target.drop (backScan (target ++ [0]) (target.length - 1)),
    basename_eq target h0 h1, ?_, ?_⟩
  · intro hnil
    rw [List.drop_eq_nil_iff] at hnil
    omega
  · intro hlast hmem
    obtain ⟨i, hi, hget⟩ := List.mem_iff_getElem.mp hmem
    have hi2 : i < target.length -
        backScan (target ++ [0]) (target.length - 1) := by
      simpa using hi
    have hidx : target.getD
        (backScan (target ++ [0]) (target.length - 1) + i) 0 = 47 := by
      have hdg : (target.drop
          (backScan (target ++ [0]) (target.length - 1))).getD i 0 = 47 := by
        rw [List.getD_eq_getElem?_getD, List.getElem?_eq_getElem hi]
        simpa using hget
      rw [List.getD_eq_getElem?_getD, List.getElem?_drop] at hdg
      rw [List.getD_eq_getElem?_getD]
      exact hdg
    by_cases hcase : backScan (target ++ [0]) (target.length - 1) + i =
        target.length - 1
    · apply hlast
      rw [List.getLast?_eq_getElem?,
        List.getElem?_eq_getElem (show target.length - 1 < target.length by
          omega)]
      rw [Option.some_inj]
      have h2 := hidx
      rw [hcase] at h2
      rw [List.getD_eq_getElem?_getD,
        List.getElem?_eq_getElem (show target.length - 1 < target.length by
          omega)] at h2
      simpa using h2
    · have hne := backScan_no_sep (target ++ [0]) (target.length - 1)
        (backScan (target ++ [0]) (target.length - 1) + i)
        (Nat.le_add_right _ _) (by omega)
      apply hne
      have hin : backScan (target ++ [0]) (target.length - 1) + i <
          target.length := by omega
      calc (target ++ [0]).getD
            (backScan (target ++ [0]) (target.length - 1) + i) 0
          = target.getD
            (backScan (target ++ [0]) (target.length - 1) + i) 0 := by
            simp [List.getD_eq_getElem?_getD, List.getElem?_append, hin]
        _ = 47 := hidx

/-- Witness for the amended C6 at the concrete NUL-free target "foo". -/
theorem resolved_basename_component_witness :
    ∃ seg,
      clib_file_get_resolved_basename (some [102, 111, 111]) =
        some (seg ++ [0]) ∧
      seg ≠ [] ∧
      (([102, 111, 111] : List Nat).getLast? ≠ some 47 → ¬ 47 ∈ seg) :=
  resolved_basename_component [102, 111, 111] (by decide) (by decide)

/-- Counterexample to C6 as stated: resolving a symlink whose target is the
two bytes "a/" (the target ends in the separator) succeeds, and the
returned path component — the bytes before the terminating NUL — contains
the separator byte 47. -/
theorem resolved_basename_slash_cex :
    clib_file_get_resolved_basename (some [97, 47]) = some [97, 47, 0] ∧
    47 ∈ ([97, 47, 0] : List Nat).dropLast := by
  exact ⟨by decide, by decide⟩

/-- C7: resolving a symlink whose target is "/usr/bin/foo" returns the
final component "foo" (with its terminating NUL), and whenever symlink
resolution yields fewer than 1 byte — a failed readlink, modelled as
`none`, or a zero-length result — the function returns absent (0), not an
Error. -/
theorem resolved_basename_examples :
    clib_file_get_resolved_basename
      (some [47, 117, 115, 114, 47, 98, 105, 110, 47, 102, 111, 111]) =
      some [102, 111, 111, 0] ∧
    clib_file_get_resolved_basename none = none ∧
    ∀ target : List Nat, target.length < 1 →
      clib_file_get_resolved_basename (some target) = none := by
  refine ⟨by decide, rfl, ?_⟩
  intro target h
  simp only [clib_file_get_resolved_basename]
  rw [if_pos h]

/-- Witness for C7 discharging the fewer-than-1-byte hypothesis at the
empty resolution result. -/
theorem resolved_basename_examples_witness :
    clib_file_get_resolved_basename (some ([] : List Nat)) = none :=
  resolved_basename_examples.2.2 [] (by decide)

/-! ### Diagnostic write -/

/-- C8: os_puts writes to the stream selected by is_error (2 for stderr, 1
for stdout); with one thread the single writev carries exactly the given
bytes and nothing else; with more than one thread the same single writev
additionally carries the "<index>: " prefix as its first part (one atomic
multi-part write); and the writev return value — success or failure — has
no effect on the function's behaviour (failures are silently ignored, and
nothing is propagated: the return type carries no error at all).  The
default os_get_nthreads reports a single thread. -/
theorem os_puts_diagnostic (cpu nthreads : Nat) (s : List Nat) (e : Bool)
    (w : Int) :
    ((os_puts cpu nthreads s e w).fd = if e then 2 else 1) ∧
    (nthreads = 1 → (os_puts cpu nthreads s e w).iovs = [s]) ∧
    (1 < nthreads → (decimalBytes cpu).length + 2 ≤ 63 →
      (os_puts cpu nthreads s e w).iovs =
        [decimalBytes cpu ++ [58, 32], s]) ∧
    (∀ w2 : Int, os_puts cpu nthreads s e w = os_puts cpu nthreads s e w2) ∧
    os_get_nthreads = 1 := by
  refine ⟨rfl, ?_, ?_, fun _ => rfl, rfl⟩
  · intro h; subst h; rfl
  · intro h hlen
    simp only [os_puts, if_pos h]
    rw [List.take_of_length_le (by simp; omega)]
    rfl

/-- Witness for C8: thread index 3 among 2 threads prepends "3: "; a single
thread does not. -/
theorem os_puts_diagnostic_witness :
    (os_puts 3 2 [65, 66] true 0).iovs =
      [decimalBytes 3 ++ [58, 32], [65, 66]] ∧
    (os_puts 3 1 [65, 66] false 0).iovs = [[65, 66]] :=
  ⟨(os_puts_diagnostic 3 2 [65, 66] true 0).2.2.1 (by decide) (by decide),
   (os_puts_diagnostic 3 1 [65, 66] false 0).2.1 rfl⟩

/-! ### CPU affinity -/

lemma clib_bitmap_set_length (bm : List Bool) (i : Nat) (h : i < bm.length) :
    (clib_bitmap_set bm i).length = bm.length := by
  simp only [clib_bitmap_set]
  rw [if_neg (by omega)]
  simp

lemma getD_append_replicate_false (l : List Bool) (k j : Nat) :
    (l ++ List.replicate k false).getD j false = l.getD j false := by
  simp only [List.getD_eq_getElem?_getD, List.getElem?_append]
  by_cases hj : j < l.length
  · rw [if_pos hj]
  · rw [if_neg hj]
    rw [show l[j]? = none from List.getElem?_eq_none (by omega)]
    simp only [List.getElem?_replicate]
    by_cases hr : j - l.length < k
    · rw [if_pos hr]; rfl
    · rw [if_neg hr]

lemma clib_bitmap_set_getD (bm : List Bool) (i j : Nat) :
    (clib_bitmap_set bm i).getD j false =
      if j = i then true else bm.getD j false := by
  have hElen : i < (if bm.length ≤ i then
      bm ++ List.replicate (i + 1 - bm.length) false else bm).length := by
    by_cases hb : bm.length ≤ i
    · rw [if_pos hb]
      simp only [List.length_append, List.length_replicate]
      omega
    · rw [if_neg hb]
      omega
  have hEget : (if bm.length ≤ i then
      bm ++ List.replicate (i + 1 - bm.length) false else bm).getD j false =
      bm.getD j false := by
    by_cases hb : bm.length ≤ i
    · rw [if_pos hb]
      exact getD_append_replicate_false bm _ j
    · rw [if_neg hb]
  simp only [clib_bitmap_set, List.getD_eq_getElem?_getD,
    List.getElem?_set] at hEget ⊢
  by_cases hij : i = j
  · rw [if_pos hij, if_pos hElen, if_pos hij.symm]
    rfl
  · rw [if_neg hij, if_neg (show ¬j = i from fun hc => hij hc.symm)]
    exact hEget

lemma affinity_foldl_getD (cpuset : List Bool) :
    ∀ (l : List Nat) (bm : List Bool) (j : Nat),
    (l.foldl
      (fun bm2 i => if cpuset.getD i false then clib_bitmap_set bm2 i
        else bm2) bm).getD j false =
      (bm.getD j false || (decide (j ∈ l) && cpuset.getD j false)) := by
  intro l
  induction l with
  | nil => intro bm j; simp
  | cons a l ih =>
      intro bm j
      simp only [List.foldl_cons]
      rw [ih]
      by_cases hc : cpuset.getD a false = true
      · rw [if_pos hc, clib_bitmap_set_getD]
        by_cases hj : j = a
        · subst hj; simp_all
        · simp [hj, List.mem_cons]
      · rw [if_neg hc]
        by_cases hj : j = a
        · subst hj
          simp only [Bool.not_eq_true] at hc
          simp_all
        · simp [hj, List.mem_cons]

lemma affinity_foldl_length (cpuset : List Bool) :
    ∀ (l : List Nat) (bm : List Bool), (∀ i ∈ l, i < bm.length) →
    (l.foldl
      (fun bm2 i => if cpuset.getD i false then clib_bitmap_set bm2 i
        else bm2) bm).length = bm.length := by
  intro l
  induction l with
  | nil => intro bm _; rfl
  | cons a l ih =>
      intro bm h
      have ha : a < bm.length := h a (List.mem_cons_self _ _)
      simp only [List.foldl_cons]
      by_cases hc : cpuset.getD a false = true
      · rw [if_pos hc, ih]
        · exact clib_bitmap_set_length bm a ha
        · intro i hi
          rw [clib_bitmap_set_length bm a ha]
          exact h i (List.mem_cons_of_mem _ hi)
      · rw [if_neg hc]
        exact ih bm (fun i hi => h i (List.mem_cons_of_mem _ hi))

/-- C5 (amended): os_get_cpu_affinity_bitmap returns absent when the kernel
affinity query fails, and on success returns a freshly allocated bitmap of
sizeof (cpu_set_t) bits, zero-initialized, in which bit j is set exactly
when j is below sizeof (cpu_set_t) — the loop bound is the record's byte
count, not its bit count — and bit j of the native record is set; native
bits at indices ≥ sizeof (cpu_set_t) are not translated. -/
theorem os_get_cpu_affinity (queryOk : Bool) (cpuset : List Bool) :
    (queryOk = false → os_get_cpu_affinity_bitmap queryOk cpuset = none) ∧
    (queryOk = true → ∃ bm,
      os_get_cpu_affinity_bitmap queryOk cpuset = some bm ∧
      bm.length = cpu_set_bytes ∧
      ∀ j, bm.getD j false =
        (decide (j < cpu_set_bytes) && cpuset.getD j false)) := by
  constructor
  · intro h; subst h; rfl
  · intro h; subst h
    simp only [os_get_cpu_affinity_bitmap, if_pos rfl]
    refine ⟨_, rfl, ?_, ?_⟩
    · rw [affinity_foldl_length]
      · simp
      · intro i hi
        simp only [List.length_replicate]
        exact List.mem_range.mp hi
    · intro j
      rw [affinity_foldl_getD]
      have hrep : (List.replicate cpu_set_bytes false).getD j false =
          false := by
        rw [List.getD_eq_getElem?_getD, List.getElem?_replicate]
        by_cases hr : j < cpu_set_bytes
        · rw [if_pos hr]; rfl
        · rw [if_neg hr]; rfl
      rw [hrep]
      simp [List.mem_range]

/-- Witness for the amended C5: a successful query over a native record
with only bit 3 set yields a bitmap whose bits obey the translation rule. -/
theorem os_get_cpu_affinity_witness :
    ∃ bm,
      os_get_cpu_affinity_bitmap true
        ((List.replicate cpu_set_bits false).set 3 true) = some bm ∧
      bm.length = cpu_set_bytes ∧
      ∀ j, bm.getD j false =
        (decide (j < cpu_set_bytes) &&
          ((List.replicate cpu_set_bits false).set 3 true).getD j false) :=
  (os_get_cpu_affinity true
    ((List.replicate cpu_set_bits false).set 3 true)).2 rfl

set_option maxRecDepth 100000 in
/-- Counterexample to C5 as stated: the native affinity record has bit 200
set (index 200 is well within the record's 1024-bit width), the query
succeeds, yet the returned bitmap does not contain id 200 — the
translation loop stops at index sizeof (cpu_set_t) = 128. -/
theorem os_get_cpu_affinity_cex :
    (List.replicate 200 false ++ [true]).getD 200 false = true ∧
    (List.replicate 200 false ++ [true]).length ≤ cpu_set_bits ∧
    (os_get_cpu_affinity_bitmap true
      (List.replicate 200 false ++ [true])).map
      (fun bm => bm.getD 200 false) = some false :=
  ⟨by decide, by decide, by decide⟩
